import Mathlib

/-!
Verification of the mount/content-provisioning engine of quick_deployments.

Shallow embedding of the Python sources `src/misc_functions.py`,
`src/basic_nginx_site.py` and `src/config.py`.

Modelling conventions:
* A filesystem path is a list of components (`os.sep`-separated); the
  leading separator of an absolute path is implicit.
* The filesystem is an association list from paths to entries.  A lookup
  returns the first entry for a key, so prepending an entry shadows
  (overwrites) an older one, matching in-place file replacement.
* Python byte strings and text contents are lists of naturals
  (code points); `str.encode("ascii")` fails on a code point above 127.
* A tar archive on disk is a file whose content is `tarBytes members`,
  an injective serialization of the archive member list.
* Exceptions are modelled with `Except` / explicit error results.  Every
  state-mutating function returns the filesystem reached at the point the
  exception was raised, mirroring Python semantics where partial effects
  persist.
* The docker container engine (network/image/container calls) is out of
  scope per the spec ("external collaborators"): those calls do not touch
  the filesystem and are modelled as no-ops.
-/

/-- Python exceptions (and two spec-taxonomy error names, see below) raised
by the code under verification. -/
inductive PyErr
  | fileExists (p : List String)
  | fileNotFound (p : List String)
  | isADirectory (p : List String)
  | notADirectory (p : List String)
  | valueError (msg : String)
  | typeError (msg : String)
  | indexError
  | unicodeEncodeError
  /-- From the spec error taxonomy (section 7); the code never raises it. -/
  | duplicateMountTarget
  /-- From the spec error taxonomy (section 7); the code never raises it. -/
  | invalidName
deriving DecidableEq, Repr

deriving instance DecidableEq for Except

/-- A filesystem path, as its list of components. -/
abbrev FPath := List String

/-- A filesystem entry: a regular file with its content bytes, or a
directory. -/
inductive Entry
  | file (content : List Nat)
  | dir
deriving DecidableEq, Repr

/-- The filesystem: an association list from absolute paths to entries. -/
abbrev FS := List (FPath × Entry)

namespace FS

/-- `os.path` lookup: the first entry recorded for a path. -/
def lookup (fs : FS) (p : FPath) : Option Entry :=
  (fs.find? (fun e => e.1 == p)).map (fun e => e.2)

/-- `os.path.isdir`. -/
def isdir (fs : FS) (p : FPath) : Bool :=
  fs.lookup p == some Entry.dir

/-- `os.access(p, os.F_OK)`: some entry exists at the path. -/
def existsAt (fs : FS) (p : FPath) : Bool :=
  (fs.lookup p).isSome

/-- The path holds a regular file (not a directory). -/
def isfileAt (fs : FS) (p : FPath) : Bool :=
  match fs.lookup p with
  | some (Entry.file _) => true
  | _ => false

/-- Some entry lies strictly below `p`; `os.listdir p` is non-empty. -/
def hasChild (fs : FS) (p : FPath) : Bool :=
  fs.any (fun e => p.isPrefixOf e.1 && e.1 != p)

/-- Remove every entry recorded at exactly path `p`. -/
def removeEntry (fs : FS) (p : FPath) : FS :=
  fs.filter (fun e => e.1 != p)

/-- Create or overwrite the entry at `p`. -/
def write (fs : FS) (p : FPath) (e : Entry) : FS :=
  (p, e) :: fs.removeEntry p

/-- The entries lying strictly below `p`. -/
def entriesUnder (fs : FS) (p : FPath) : FS :=
  fs.filter (fun e => p.isPrefixOf e.1 && e.1 != p)

end FS

/-- The proper non-empty prefixes of a path (the ancestor directories an
`os.makedirs` call has to provide). -/
def ancestorsOf (p : FPath) : List FPath :=
  ((List.range p.length).map (fun k => p.take k)).filter (fun q => !q.isEmpty)

namespace FS

/-- `os.makedirs(p)` (no `exist_ok`): error if `p` exists; error if some
ancestor exists as a regular file; otherwise create `p` and every missing
ancestor as directories. -/
def makedirs (fs : FS) (p : FPath) : Except PyErr FS :=
  if fs.existsAt p then Except.error (PyErr.fileExists p)
  else if (ancestorsOf p).any (fun q => fs.isfileAt q) then
    Except.error (PyErr.notADirectory p)
  else
    Except.ok ((p, Entry.dir) ::
      (((ancestorsOf p).filter (fun q => !fs.existsAt q)).map
        (fun q => (q, Entry.dir)) ++ fs))

/-- The ancestor-pruning loop of `os.removedirs`, structurally recursive on
a fuel equal to the path length (each step climbs to the parent, so the
path length bounds the number of steps exactly): climb from `p` upward,
removing each directory while it is empty, stopping at the first path that
is not an empty directory. -/
def pruneAux : Nat → FS → FPath → FS
  | 0, fs, _ => fs
  | fuel + 1, fs, p =>
    if p.isEmpty then fs
    else if fs.isdir p && !fs.hasChild p then
      pruneAux fuel (fs.removeEntry p) p.dropLast
    else fs

/-- The ancestor-pruning loop of `os.removedirs`. -/
def prune (fs : FS) (p : FPath) : FS := pruneAux p.length fs p

/-- `os.removedirs(p)`: remove the (empty, at every call site) leaf
directory, then prune newly-empty ancestors. -/
def removedirs (fs : FS) (p : FPath) : FS :=
  prune (fs.removeEntry p) p.dropLast

/-- `shutil.copy(src, dstdir)` where `dstdir` is an existing directory:
copy the file `src` to `dstdir/basename(src)`. -/
def shutilCopy (fs : FS) (src dstdir : FPath) : Except PyErr FS :=
  match fs.lookup src with
  | some (Entry.file c) => Except.ok (fs.write (dstdir ++ [src.getLastD ""]) (Entry.file c))
  | some Entry.dir => Except.error (PyErr.isADirectory src)
  | none => Except.error (PyErr.fileNotFound src)

/-- `shutil.copytree(src, dst)`: scan the source tree, create `dst` (with
`os.makedirs`), and copy every entry below `src` to the corresponding path
below `dst`.  Call sites guarantee `src` is a directory and `dst` absent. -/
def copytree (fs : FS) (src dst : FPath) : Except PyErr FS :=
  match fs.makedirs dst with
  | Except.error e => Except.error e
  | Except.ok fs1 =>
      Except.ok (((fs.entriesUnder src).map
        (fun e => (dst ++ e.1.drop src.length, e.2))) ++ fs1)

end FS

/-! ## SHA-256 (`hashlib.sha256(...).hexdigest()`) -/

/-- 32-bit modular addition. -/
def add32 (a b : Nat) : Nat := (a + b) % 4294967296

/-- 32-bit right rotation. -/
def rotr32 (n x : Nat) : Nat := ((x >>> n) ||| (x <<< (32 - n))) % 4294967296

/-- SHA-256 Sigma0. -/
def bigSigma0 (x : Nat) : Nat := (rotr32 2 x) ^^^ (rotr32 13 x) ^^^ (rotr32 22 x)

/-- SHA-256 Sigma1. -/
def bigSigma1 (x : Nat) : Nat := (rotr32 6 x) ^^^ (rotr32 11 x) ^^^ (rotr32 25 x)

/-- SHA-256 sigma0. -/
def smallSigma0 (x : Nat) : Nat := (rotr32 7 x) ^^^ (rotr32 18 x) ^^^ (x >>> 3)

/-- SHA-256 sigma1. -/
def smallSigma1 (x : Nat) : Nat := (rotr32 17 x) ^^^ (rotr32 19 x) ^^^ (x >>> 10)

/-- SHA-256 Ch. -/
def chN (x y z : Nat) : Nat := (x &&& y) ^^^ ((x ^^^ 4294967295) &&& z)

/-- SHA-256 Maj. -/
def majN (x y z : Nat) : Nat := (x &&& y) ^^^ (x &&& z) ^^^ (y &&& z)

/-- SHA-256 round constants (decimal, FIPS 180-4 section 4.2.2). -/
def sha256K : List Nat :=
  [1116352408, 1899447441, 3049323471, 3921009573, 961987163,
   1508970993, 2453635748, 2870763221, 3624381080, 310598401,
   607225278, 1426881987, 1925078388, 2162078206, 2614888103,
   3248222580, 3835390401, 4022224774, 264347078, 604807628,
   770255983, 1249150122, 1555081692, 1996064986, 2554220882,
   2821834349, 2952996808, 3210313671, 3336571891, 3584528711,
   113926993, 338241895, 666307205, 773529912, 1294757372,
   1396182291, 1695183700, 1986661051, 2177026350, 2456956037,
   2730485921, 2820302411, 3259730800, 3345764771, 3516065817,
   3600352804, 4094571909, 275423344, 430227734, 506948616,
   659060556, 883997877, 958139571, 1322822218, 1537002063,
   1747873779, 1955562222, 2024104815, 2227730452, 2361852424,
   2428436474, 2756734187, 3204031479, 3329325298]

/-- SHA-256 initial hash state (decimal, FIPS 180-4 section 5.3.3). -/
def sha256H0 : List Nat :=
  [1779033703, 3144134277, 1013904242, 2773480762,
   1359893119, 2600822924, 528734635, 1541459225]

/-- Split a list into consecutive blocks of size `n` (fuel-driven). -/
def chunksAux (n : Nat) : Nat → List Nat → List (List Nat)
  | 0, _ => []
  | _ + 1, [] => []
  | fuel + 1, l => l.take n :: chunksAux n fuel (l.drop n)

/-- Split a list into consecutive blocks of size `n`. -/
def chunksOf (n : Nat) (l : List Nat) : List (List Nat) :=
  chunksAux n l.length l

/-- Big-endian bytes to a machine word. -/
def bytesToWord (l : List Nat) : Nat :=
  l.foldl (fun acc b => acc * 256 + b) 0

/-- SHA-256 message padding: `0x80`, zeros to 56 mod 64, 64-bit big-endian
bit length. -/
def padBytes (msg : List Nat) : List Nat :=
  msg ++ 128 :: (List.replicate ((119 - msg.length % 64) % 64) 0 ++
    (List.range 8).map (fun i => ((8 * msg.length) >>> (8 * (7 - i))) % 256))

/-- Extend the 16 schedule words of a chunk to 64. -/
def extendW (w : List Nat) : List Nat :=
  (List.range 48).foldl
    (fun acc _ =>
      acc ++ [add32
        (add32
          (add32 (smallSigma1 (acc.getD (acc.length - 2) 0))
            (acc.getD (acc.length - 7) 0))
          (smallSigma0 (acc.getD (acc.length - 15) 0)))
        (acc.getD (acc.length - 16) 0)])
    w

/-- One SHA-256 compression round. -/
def shaRound (st : List Nat) (kw : Nat × Nat) : List Nat :=
  match st with
  | [a, b, c, d, e, f, g, h] =>
    let t1 := add32 (add32 (add32 (add32 h (bigSigma1 e)) (chN e f g)) kw.1) kw.2
    let t2 := add32 (bigSigma0 a) (majN a b c)
    [add32 t1 t2, a, b, c, add32 d t1, e, f, g]
  | _ => st

/-- Process one 64-byte chunk. -/
def processChunk (hs : List Nat) (chunk : List Nat) : List Nat :=
  let w := extendW ((chunksOf 4 chunk).map bytesToWord)
  let st := (sha256K.zip w).foldl shaRound hs
  (hs.zip st).map (fun p => add32 p.1 p.2)

/-- SHA-256 of a byte list, as eight 32-bit words. -/
def sha256words (msg : List Nat) : List Nat :=
  (chunksOf 64 (padBytes msg)).foldl processChunk sha256H0

/-- A 32-bit word as eight lowercase hex characters. -/
def hexOfWord (x : Nat) : List Char :=
  (List.range 8).map
    (fun i => "0123456789abcdef".toList.getD ((x >>> (4 * (7 - i))) % 16) (Char.ofNat 48))

/-- `hashlib.sha256(bytes).hexdigest()`. -/
def sha256hex (msg : List Nat) : String :=
  String.mk (((sha256words msg).map hexOfWord).flatten)

set_option maxRecDepth 100000

example : sha256hex [] =
    "e3b0c44298fc1c149afbf4c8996fb92427ae41e4649b934ca495991b7852b855" := by decide

example : sha256hex [97, 98, 99] =
    "ba7816bf8f01cfea414140de5dae2223b00361a396177a9cb410ff61f20015ad" := by decide

/-! ## `src/misc_functions.py` -/

/-- The code points of a Lean string (a Python `str` value). -/
def strCodes (s : String) : List Nat := s.data.map Char.toNat

/-- `str.encode("ascii")`: fails with `UnicodeEncodeError` when some code
point is outside the ASCII range. -/
def pyEncodeAscii (s : List Nat) : Except PyErr (List Nat) :=
  if s.all (fun c => c ≤ 127) then Except.ok s else Except.error PyErr.unicodeEncodeError

/-- `misc_functions.hash_of_str`: sha256 hexdigest of the ASCII encoding of
a string (given as its code points). -/
def hash_of_str (s : List Nat) : Except PyErr String :=
  (pyEncodeAscii s).map sha256hex

/-- `misc_functions.read_absolute` (via `open(...).read()`): the text
content of the file at the path. -/
def read_absolute (fs : FS) (p : FPath) : Except PyErr (List Nat) :=
  match fs.lookup p with
  | some (Entry.file c) => Except.ok c
  | some Entry.dir => Except.error (PyErr.isADirectory p)
  | none => Except.error (PyErr.fileNotFound p)

/-- `misc_functions.hash_of_file`: hash of the file content read by
`read_absolute`. -/
def hash_of_file (fs : FS) (p : FPath) : Except PyErr String :=
  match read_absolute fs p with
  | Except.ok c => hash_of_str c
  | Except.error e => Except.error e

/-- `misc_functions.list_recursively`: a non-directory path lists as just
itself; a directory lists the (regular-file) paths of everything below it,
in filesystem-walk order. -/
def list_recursively (fs : FS) (p : FPath) : List FPath :=
  if !fs.isdir p then [p]
  else fs.filterMap (fun e =>
    match e.2 with
    | Entry.file _ => if p.isPrefixOf e.1 && e.1 != p then some e.1 else none
    | Entry.dir => none)

/-- `misc_functions.check_isdir(filepath, src)`: ensure `filepath` is a
directory, creating and optionally populating it.  `src = []` models the
default `src=""`.  Returns the Python return value (`True` = created or
populated, `False` = nothing needed) or the raised exception, together with
the filesystem after the call (including partial effects on error). -/
def check_isdir (fs : FS) (filepath : FPath) (src : FPath) :
    Except PyErr Bool × FS :=
  if !fs.isdir filepath then
    if fs.existsAt filepath then
      (Except.error (PyErr.fileExists filepath), fs)
    else if !src.isEmpty && fs.isdir src then
      match fs.copytree src filepath with
      | Except.ok fs1 => (Except.ok true, fs1)
      | Except.error e => (Except.error e, fs)
    else
      match fs.makedirs filepath with
      | Except.error e => (Except.error e, fs)
      | Except.ok fs1 =>
        if !src.isEmpty then
          match fs1.shutilCopy src filepath with
          | Except.ok fs2 => (Except.ok true, fs2)
          | Except.error e => (Except.error e, fs1)
        else (Except.ok true, fs1)
  else if !fs.hasChild filepath && !src.isEmpty then
    if fs.isdir src then
      match (fs.removedirs filepath).copytree src filepath with
      | Except.ok fs1 => (Except.ok true, fs1)
      | Except.error e => (Except.error e, fs.removedirs filepath)
    else
      match fs.shutilCopy src filepath with
      | Except.ok fs1 => (Except.ok true, fs1)
      | Except.error e => (Except.error e, fs)
  else (Except.ok false, fs)

/-- `os.path.join` string semantics: an absolute second component resets
the result; otherwise a separator is inserted when needed.  (Stated over
the character lists so that concrete instances evaluate by `decide`.) -/
def osPathJoin (a b : String) : String :=
  if b.data.take 1 = ['/'] then b
  else if a.data = [] || a.data.getLastD ' ' = '/' then a ++ b
  else a ++ "/" ++ b

/-- `misc_functions.get_parent_dir(name)`:
`os.path.join(os.sep, "usr", "share", "quick_deployments", "static", name)`. -/
def get_parent_dir (name : String) : String :=
  osPathJoin (osPathJoin (osPathJoin (osPathJoin (osPathJoin "/" "usr") "share")
    "quick_deployments") "static") name

example : get_parent_dir "site1" = "/usr/share/quick_deployments/static/site1" := by decide

/-! ## `src/basic_nginx_site.py`: archive staging and mount planning -/

/-- `docker.types.Mount` restricted to the fields the code sets (the
`type` keyword argument is spelled `mtype`). -/
structure DMount where
  target : String
  source : String
  mtype : String
  read_only : Bool
deriving DecidableEq, Repr

/-- A content source for `CopyFoldersToMounts.get_mount_for`: either a
filepath (Python `str`) or an already-open tar archive
(`tarfile.TarFile`), given by its member files. -/
inductive Src
  | path (p : FPath)
  | tarf (members : List (FPath × List Nat))
deriving DecidableEq, Repr

/-- An (injective) stand-in for the byte serialization of a tar archive
holding the given member files. -/
def encComp (s : String) : List Nat :=
  s.length :: s.data.map Char.toNat

/-- Serialize one tar member. -/
def encMember (m : FPath × List Nat) : List Nat :=
  (m.1.length :: (m.1.map encComp).flatten) ++ m.2.length :: m.2

/-- The bytes of a tar archive with the given members. -/
def tarBytes (ms : List (FPath × List Nat)) : List Nat :=
  ms.length :: (ms.map encMember).flatten

/-- The temporary storage directory of `get_mount_for`:
`os.path.join(os.sep, "tmp", "quick_deployments", "tmpstore")`. -/
def tmpstorePath : FPath := ["tmp", "quick_deployments", "tmpstore"]

/-- The archive file name `"%s.tar" % hash_of_str(mount_point)[:15]`
(propagating a `UnicodeEncodeError` from hashing a non-ASCII mount
point). -/
def tarName (mount_point : String) : Except PyErr String :=
  match hash_of_str (strCodes mount_point) with
  | Except.ok h => Except.ok (String.mk (h.data.take 15) ++ ".tar")
  | Except.error e => Except.error e

/-- The `tf.add(f)` loop over a list of paths: returns the members added
(in order) until the first failure, and the failure if any.  `tf.add` of a
missing path raises `FileNotFoundError`; the directory case is unreachable
from the call sites (`os.walk` yields only regular files). -/
def tarAddAll (fs : FS) : List FPath → List (FPath × List Nat) × Option PyErr
  | [] => ([], none)
  | f :: rest =>
    match fs.lookup f with
    | some (Entry.file c) =>
      let r := tarAddAll fs rest
      ((f, c) :: r.1, r.2)
    | some Entry.dir => ([], some (PyErr.isADirectory f))
    | none => ([], some (PyErr.fileNotFound f))

/-- `TarFile.extractall(dst)`: write every member below `dst`. -/
def extractAll (fs : FS) (dst : FPath) (members : List (FPath × List Nat)) : FS :=
  members.foldl (fun a m => a.write (dst ++ m.1) (Entry.file m.2)) fs

/-- `CopyFoldersToMounts.get_mount_for(source, destination, mount_point)`.

Returns (the Python return value `(mnt, archive-path)`, or the raised
exception) together with the filesystem after the call.

Faithful points worth noting, each taken directly from the source:
* `check_isdir(tmpstore)` runs first and creates the temp store.
* For a `str` source the tar file is opened at
  `os.path.join(tmpstore, name)` while the returned path is
  `os.path.join(os.sep, "tmp", "quick_deployments", name)`.
* For a `TarFile` source the code calls `os.makedirs(tmpstore)` again,
  which raises `FileExistsError` since `check_isdir` just ensured the
  directory exists; the rest of that branch is modelled anyway.
* A tar file opened with mode `"w"` persists with the members added so
  far if an `add` call raises. -/
def get_mount_for (fs : FS) (source : Src) (destination : String)
    (mount_point : String) : Except PyErr (DMount × FPath) × FS :=
  match check_isdir fs tmpstorePath [] with
  | (Except.error e, fs1) => (Except.error e, fs1)
  | (Except.ok _, fs1) =>
    match source with
    | Src.path p =>
      match tarName mount_point with
      | Except.error e => (Except.error e, fs1)
      | Except.ok nm =>
        let add := tarAddAll fs1 (list_recursively fs1 p)
        let fs2 := fs1.write (tmpstorePath ++ [nm]) (Entry.file (tarBytes add.1))
        match add.2 with
        | some e => (Except.error e, fs2)
        | none =>
          (Except.ok
            ({ target := destination, source := mount_point,
               mtype := "bind", read_only := true },
             ["tmp", "quick_deployments", nm]), fs2)
    | Src.tarf members =>
      match fs1.makedirs tmpstorePath with
      | Except.error e => (Except.error e, fs1)
      | Except.ok fs2 =>
        -- Unreachable: check_isdir has just ensured tmpstore exists, so
        -- os.makedirs always raises FileExistsError above.  Modelled for
        -- completeness.
        let fs3 := extractAll fs2 tmpstorePath members
        match tarName mount_point with
        | Except.error e => (Except.error e, fs3)
        | Except.ok nm =>
          let add := tarAddAll fs3 (list_recursively fs3 tmpstorePath)
          let fs4 := fs3.write (["tmp", "quick_deployments"] ++ [nm])
            (Entry.file (tarBytes add.1))
          match add.2 with
          | some e => (Except.error e, fs4)
          | none =>
            let fs5 := (list_recursively fs4 tmpstorePath).foldl
              (fun a f => FS.removeEntry a f) fs4
            let fs6 := fs5.removedirs tmpstorePath
            (Except.ok
              ({ target := destination, source := mount_point,
                 mtype := "bind", read_only := true },
               ["tmp", "quick_deployments", nm]), fs6)

/-- A `webroot`/`confdir` argument of `CopyFoldersToMounts.__init__`: a
mapping from host mount point to content source. -/
abbrev MountMap := List (String × Src)

/-- One value of the `other_mounts` mapping. -/
structure OtherCfg where
  destination : String
  incoming_data : Src
deriving DecidableEq, Repr

/-- `CopyFoldersToMounts.__init__(name, webroot, confdir, other_mounts)` up
to (and excluding) the container-engine calls; the docker network lookup has
no filesystem effect and is skipped.

Faithful points, each taken directly from the source:
* `len(webroot) > 1` is checked first (`ValueError`).
* `len(confdir)` is evaluated BEFORE the `confdir is None` default branch,
  so an omitted `confdir` raises
  `TypeError: object of type NoneType has no len()`.
* The webroot staging call passes the host mount point as `destination`
  and the in-container path as `mount_point`.
* The confdir staging call `self.get_mount_for(tuple(confdir.keys())[0],
  "/etc/nginx")` omits the required `mount_point` argument and therefore
  always raises `TypeError` (after the `tuple(...)[0]` argument expression
  raises `IndexError` when the mapping is empty).  Everything after it —
  the `other_mounts` loop, container creation, `put_archive` — is
  unreachable, so the model stops at that failure. -/
def CopyFoldersToMounts_init (fs : FS) (name : String) (webroot : MountMap)
    (confdir : Option MountMap) (other_mounts : Option (List (String × OtherCfg))) :
    Except PyErr (List (DMount × FPath)) × FS :=
  if webroot.length > 1 then
    (Except.error (PyErr.valueError "webroot mapping must have length one"), fs)
  else
    match confdir with
    | none => (Except.error (PyErr.typeError "object of type NoneType has no len"), fs)
    | some cd =>
      if cd.length > 1 then
        (Except.error (PyErr.valueError "confdir mapping must have length one"), fs)
      else
        match webroot with
        | [] => (Except.error PyErr.indexError, fs)
        | (wk, wv) :: _ =>
          match get_mount_for fs wv wk "/usr/share/nginx/html" with
          | (Except.error e, fs1) => (Except.error e, fs1)
          | (Except.ok _, fs1) =>
            match cd with
            | [] => (Except.error PyErr.indexError, fs1)
            | _ :: _ =>
              (Except.error (PyErr.typeError
                "get_mount_for missing 1 required positional argument"), fs1)

/-- `Config.default_nginx_config` as a path. -/
def defaultNginxConfig : FPath :=
  ["usr", "share", "quick_deployments", "nginx_default", "configuration"]

/-- `Config.default_nginx_webroot` as a path. -/
def defaultNginxWebroot : FPath :=
  ["usr", "share", "quick_deployments", "nginx_default", "webroot"]

/-! ## Spec-side definitions used to state claims -/

/-- Modelled from the spec: `PathPolicy.parentDirectoryFor` — fails with
`InvalidName` when the instance name contains a path separator, otherwise
the per-instance static root.  (Used only to state claim C8 against
`get_parent_dir`, which performs no such validation.) -/
def parentDirectoryFor (name : String) : Except PyErr String :=
  if name.data.contains '/' then Except.error PyErr.invalidName
  else Except.ok ("/usr/share/quick_deployments/static/" ++ name)

/-- The regular files lying strictly below `p`, with their contents, in
filesystem order. -/
def filesUnder (fs : FS) (p : FPath) : List (FPath × List Nat) :=
  fs.filterMap (fun e =>
    match e.2 with
    | Entry.file c => if p.isPrefixOf e.1 && e.1 != p then some (e.1, c) else none
    | Entry.dir => none)

/-- Modelled from the spec: the member list `ArchiveStager.stageMissing`
is required to put in the archive for a path source — every file below the
source whose content hash is not present in `existingFileHashes`.  (Used
only to state claim C1 against `get_mount_for`, which performs no
hash-diff.) -/
def specStageMembers (fs : FS) (p : FPath) (existing : List String) :
    List (FPath × List Nat) :=
  (filesUnder fs p).filter (fun m =>
    match hash_of_str m.2 with
    | Except.ok d => !existing.contains d
    | Except.error _ => true)

/-- The content of the regular file at `p` (unspecified otherwise). -/
def contentAt (fs : FS) (p : FPath) : List Nat :=
  match fs.lookup p with
  | some (Entry.file c) => c
  | _ => []

/-- Two filesystems are observably identical: every path resolves to the
same entry. -/
def FS.equiv (a b : FS) : Prop := ∀ q, a.lookup q = b.lookup q

/-! ## Helper lemmas about the filesystem model -/

theorem FS.lookup_nil (q : FPath) : FS.lookup [] q = none := rfl

theorem FS.lookup_cons (k : FPath) (e : Entry) (fs : FS) (q : FPath) :
    FS.lookup ((k, e) :: fs) q = if k = q then some e else FS.lookup fs q := by
  by_cases h : k = q
  · subst h
    simp only [FS.lookup, if_pos rfl]
    rw [List.find?_cons_of_pos]
    · rfl
    · simp
  · rw [if_neg h]
    simp only [FS.lookup]
    rw [List.find?_cons_of_neg]
    simp [h]

theorem FS.lookup_append (l fs : FS) (q : FPath)
    (h : ∀ e ∈ l, e.1 ≠ q) : FS.lookup (l ++ fs) q = FS.lookup fs q := by
  induction l with
  | nil => rfl
  | cons a t ih =>
    match a with
    | (k, e) =>
      rw [List.cons_append, FS.lookup_cons, if_neg (h (k, e) (by simp))]
      exact ih (fun x hx => h x (by simp [hx]))

theorem FS.lookup_removeEntry (fs : FS) (p q : FPath) :
    FS.lookup (fs.removeEntry p) q = if q = p then none else FS.lookup fs q := by
  induction fs with
  | nil =>
    by_cases hq : q = p <;> simp [FS.removeEntry, FS.lookup, hq]
  | cons a t ih =>
    match a with
    | (k, e) =>
      by_cases hk : k = p
      · subst hk
        rw [show FS.removeEntry ((k, e) :: t) k = FS.removeEntry t k from by
          simp [FS.removeEntry]]
        rw [ih, FS.lookup_cons]
        by_cases hq : q = k
        · simp [hq]
        · simp [hq, if_neg (Ne.symm hq)]
      · rw [show FS.removeEntry ((k, e) :: t) p = (k, e) :: FS.removeEntry t p from by
          simp [FS.removeEntry, hk]]
        rw [FS.lookup_cons, FS.lookup_cons, ih]
        by_cases hkq : k = q
        · subst hkq
          by_cases hq : k = p
          · exact absurd hq hk
          · simp [hq]
        · simp [hkq]

theorem FS.lookup_write (fs : FS) (p : FPath) (e : Entry) (q : FPath) :
    FS.lookup (fs.write p e) q = if p = q then some e else FS.lookup fs q := by
  rw [FS.write, FS.lookup_cons, FS.lookup_removeEntry]
  by_cases h : p = q
  · simp [h]
  · simp [h, if_neg (fun hh : q = p => h (Eq.symm hh))]

theorem FS.lookup_append_dir (l fs : FS) (q : FPath)
    (hall : ∀ e ∈ l, e.2 = Entry.dir) (hex : ∃ e ∈ l, e.1 = q) :
    FS.lookup (l ++ fs) q = some Entry.dir := by
  induction l with
  | nil =>
    rcases hex with ⟨x, hx, -⟩
    simp at hx
  | cons a t ih =>
    match a with
    | (k, e) =>
      rw [List.cons_append, FS.lookup_cons]
      by_cases hk : k = q
      · rw [if_pos hk]
        exact congrArg some (hall (k, e) (by simp))
      · rw [if_neg hk]
        apply ih
        · intro x hx; exact hall x (by simp [hx])
        · rcases hex with ⟨x, hx, hxq⟩
          rcases List.mem_cons.mp hx with h | h
          · rw [h] at hxq; exact absurd hxq hk
          · exact ⟨x, h, hxq⟩

theorem ancestorsOf_mem_iff {q p : FPath} :
    q ∈ ancestorsOf p ↔ (q <+: p ∧ q ≠ p ∧ q ≠ []) := by
  constructor
  · intro h
    simp only [ancestorsOf, List.mem_filter, List.mem_map, List.mem_range] at h
    obtain ⟨⟨k, hk, hq⟩, hne⟩ := h
    subst hq
    refine ⟨List.take_prefix k p, ?_, ?_⟩
    · intro he
      have hlen : (p.take k).length = k := by
        rw [List.length_take]; omega
      rw [he] at hlen
      omega
    · intro he; rw [he] at hne; simp at hne
  · rintro ⟨hpre, hne, hnil⟩
    have hlt : q.length < p.length := by
      rcases Nat.lt_or_ge q.length p.length with h | h
      · exact h
      · exact absurd (hpre.eq_of_length (by have := hpre.length_le; omega)) hne
    simp only [ancestorsOf, List.mem_filter, List.mem_map, List.mem_range]
    exact ⟨⟨q.length, hlt, (List.prefix_iff_eq_take.mp hpre).symm⟩, by simpa using hnil⟩

theorem FS.makedirs_ok_inv {fs : FS} {p : FPath} {fs1 : FS}
    (h : fs.makedirs p = Except.ok fs1) :
    fs.existsAt p = false ∧
    ((ancestorsOf p).any (fun q => fs.isfileAt q)) = false ∧
    fs1 = (p, Entry.dir) ::
      (((ancestorsOf p).filter (fun q => !fs.existsAt q)).map
        (fun q => (q, Entry.dir)) ++ fs) := by
  unfold FS.makedirs at h
  split at h
  · cases h
  · split at h
    · cases h
    · injection h with h
      refine ⟨by simp_all, by simp_all, h.symm⟩

theorem FS.makedirs_ok_lookup_self {fs : FS} {p : FPath} {fs1 : FS}
    (h : fs.makedirs p = Except.ok fs1) : fs1.lookup p = some Entry.dir := by
  obtain ⟨-, -, h3⟩ := FS.makedirs_ok_inv h
  rw [h3, FS.lookup_cons, if_pos rfl]

theorem FS.makedirs_ok_lookup_prefix {fs : FS} {p : FPath} {fs1 : FS}
    (h : fs.makedirs p = Except.ok fs1) {q : FPath} (hq : q <+: p) (hne : q ≠ []) :
    fs1.lookup q = some Entry.dir := by
  obtain ⟨h1, h2, h3⟩ := FS.makedirs_ok_inv h
  subst h3
  by_cases hqp : q = p
  · rw [hqp, FS.lookup_cons, if_pos rfl]
  · rw [FS.lookup_cons, if_neg (fun he => hqp he.symm)]
    have hanc : q ∈ ancestorsOf p := ancestorsOf_mem_iff.mpr ⟨hq, hqp, hne⟩
    by_cases hex : fs.existsAt q = true
    · rw [FS.lookup_append]
      · -- q exists in fs and is not a file (from the any-check), so it is a dir
        have hnf : fs.isfileAt q = false := by
          cases hbb : fs.isfileAt q with
          | false => rfl
          | true =>
            have : (ancestorsOf p).any (fun r => fs.isfileAt r) = true :=
              List.any_eq_true.mpr ⟨q, hanc, hbb⟩
            rw [this] at h2; cases h2
        unfold FS.existsAt at hex
        unfold FS.isfileAt at hnf
        rcases hl : fs.lookup q with _ | e
        · rw [hl] at hex; cases hex
        · cases e with
          | file c => rw [hl] at hnf; simp at hnf
          | dir => rfl
      · intro e he
        rcases List.mem_map.mp he with ⟨r, hr, hre⟩
        rcases List.mem_filter.mp hr with ⟨-, hrex⟩
        intro hq1
        rw [← hre] at hq1
        simp only at hq1
        rw [hq1] at hrex
        rw [hex] at hrex
        cases hrex
    · apply FS.lookup_append_dir
      · intro e he
        rcases List.mem_map.mp he with ⟨r, -, hre⟩
        rw [← hre]
      · refine ⟨(q, Entry.dir), List.mem_map.mpr ⟨q, ?_, rfl⟩, rfl⟩
        refine List.mem_filter.mpr ⟨hanc, ?_⟩
        simp [Bool.not_eq_true] at hex ⊢
        exact hex

theorem FS.makedirs_ok_lookup_other {fs : FS} {p : FPath} {fs1 : FS}
    (h : fs.makedirs p = Except.ok fs1) {q : FPath} (hq : ¬(q <+: p)) :
    fs1.lookup q = fs.lookup q := by
  obtain ⟨-, -, h3⟩ := FS.makedirs_ok_inv h
  subst h3
  rw [FS.lookup_cons, if_neg (fun he : p = q => hq (by subst he; exact List.prefix_refl p))]
  apply FS.lookup_append
  intro e he
  rcases List.mem_map.mp he with ⟨r, hr, hre⟩
  rcases List.mem_filter.mp hr with ⟨hanc, -⟩
  intro he1
  rw [← hre] at he1
  simp only at he1
  rw [he1] at hanc
  exact hq (ancestorsOf_mem_iff.mp hanc).1

theorem FS.mem_entriesUnder {fs : FS} {p : FPath} {e : FPath × Entry} :
    e ∈ fs.entriesUnder p ↔ e ∈ fs ∧ p <+: e.1 ∧ e.1 ≠ p := by
  simp only [FS.entriesUnder, List.mem_filter, Bool.and_eq_true,
    List.isPrefixOf_iff_prefix, bne_iff_ne, ne_eq, and_assoc]

theorem strict_ext_ne {p rel : FPath} (h : rel ≠ []) : p ++ rel ≠ p := by
  intro he
  have hl := congrArg List.length he
  simp at hl
  exact h hl

theorem entriesUnder_drop_ne {fs : FS} {src : FPath} {x : FPath × Entry}
    (hx : x ∈ fs.entriesUnder src) : x.1.drop src.length ≠ [] := by
  rcases FS.mem_entriesUnder.mp hx with ⟨-, hpre, hne⟩
  intro he
  have hlen := hpre.length_le
  have : x.1.length - src.length = 0 := by
    have := congrArg List.length he; simpa using this
  exact hne (hpre.eq_of_length (by omega)).symm

theorem FS.copytree_ok_inv {fs : FS} {src dst : FPath} {fs1 : FS}
    (h : fs.copytree src dst = Except.ok fs1) :
    ∃ fs2, fs.makedirs dst = Except.ok fs2 ∧
      fs1 = ((fs.entriesUnder src).map
        (fun e => (dst ++ e.1.drop src.length, e.2))) ++ fs2 := by
  unfold FS.copytree at h
  split at h
  · cases h
  · injection h with h
    exact ⟨_, by assumption, h.symm⟩

theorem FS.copytree_ok_lookup_dst {fs : FS} {src dst : FPath} {fs1 : FS}
    (h : fs.copytree src dst = Except.ok fs1) :
    fs1.lookup dst = some Entry.dir := by
  obtain ⟨fs2, hmk, h1⟩ := FS.copytree_ok_inv h
  subst h1
  rw [FS.lookup_append]
  · exact FS.makedirs_ok_lookup_self hmk
  · intro e he
    rcases List.mem_map.mp he with ⟨x, hx, hxe⟩
    rw [← hxe]
    exact strict_ext_ne (entriesUnder_drop_ne hx)

theorem FS.shutilCopy_ok_inv {fs : FS} {src dstdir : FPath} {fs1 : FS}
    (h : fs.shutilCopy src dstdir = Except.ok fs1) :
    ∃ c, fs.lookup src = some (Entry.file c) ∧
      fs1 = fs.write (dstdir ++ [src.getLastD ""]) (Entry.file c) := by
  unfold FS.shutilCopy at h
  split at h
  next c heq => exact ⟨c, heq, by injection h with h; exact h.symm⟩
  next heq => cases h
  next heq => cases h

theorem check_isdir_ok_isdir {fs : FS} {p s : FPath} {b : Bool} {fs1 : FS}
    (h : check_isdir fs p s = (Except.ok b, fs1)) : fs1.isdir p = true := by
  unfold check_isdir at h
  split at h
  case isTrue hnd =>
    split at h
    · simp at h
    · split at h
      · split at h
        next fs2 hct =>
          injection h with h1 h2
          subst h2
          simp [FS.isdir, FS.copytree_ok_lookup_dst hct]
        next e hct => simp at h
      · split at h
        next e hmk => simp at h
        next fs2 hmk =>
          split at h
          · split at h
            next fs3 hcp =>
              injection h with h1 h2
              subst h2
              obtain ⟨c, hlk, hw⟩ := FS.shutilCopy_ok_inv hcp
              subst hw
              rw [FS.isdir, FS.lookup_write, if_neg (strict_ext_ne (by simp))]
              have := FS.makedirs_ok_lookup_self hmk
              simp [FS.isdir, this]
            next e hcp => simp at h
          · injection h with h1 h2
            subst h2
            simp [FS.isdir, FS.makedirs_ok_lookup_self hmk]
  case isFalse hnd =>
    have hdir : fs.isdir p = true := by
      cases hb : fs.isdir p with
      | true => rfl
      | false => rw [hb] at hnd; simp at hnd
    split at h
    · split at h
      · split at h
        next fs2 hct =>
          injection h with h1 h2
          subst h2
          simp [FS.isdir, FS.copytree_ok_lookup_dst hct]
        next e hct => simp at h
      · split at h
        next fs2 hcp =>
          injection h with h1 h2
          subst h2
          obtain ⟨c, hlk, hw⟩ := FS.shutilCopy_ok_inv hcp
          subst hw
          rw [FS.isdir, FS.lookup_write, if_neg (strict_ext_ne (by simp))]
          rw [FS.isdir] at hdir
          exact hdir
        next e hcp => simp at h
    · injection h with h1 h2
      subst h2
      exact hdir

/-! ## Claim theorems -/

/-- C4: never-clobber — if the destination exists as a non-empty directory
before `check_isdir` (the spec `DirectoryMaterializer.ensure`) is called,
the call returns `False` (the spec `AlreadyPresent`) and the filesystem is
returned unchanged, for every `src` argument. -/
theorem c4_never_clobber (fs : FS) (dest src : FPath)
    (hdir : fs.isdir dest = true) (hch : fs.hasChild dest = true) :
    check_isdir fs dest src = (Except.ok false, fs) := by
  unfold check_isdir
  rw [hdir, hch]
  simp

/-- Witness for C4 at a concrete non-empty destination directory. -/
theorem c4_never_clobber_witness :
    check_isdir [(["d"], Entry.dir), (["d", "x"], Entry.file [1])] ["d"] ["s"] =
      (Except.ok false, [(["d"], Entry.dir), (["d", "x"], Entry.file [1])]) :=
  c4_never_clobber [(["d"], Entry.dir), (["d", "x"], Entry.file [1])] ["d"] ["s"]
    (by decide) (by decide)

/-- C9: a destination that exists as a regular file makes `check_isdir`
raise `FileExistsError` (the spec `DestinationIsFile`) and leaves the
filesystem — in particular the existing file — untouched. -/
theorem c9_destination_is_file (fs : FS) (dest src : FPath) (c : List Nat)
    (hf : fs.lookup dest = some (Entry.file c)) :
    check_isdir fs dest src = (Except.error (PyErr.fileExists dest), fs) := by
  unfold check_isdir
  have h1 : fs.isdir dest = false := by simp [FS.isdir, hf]
  have h2 : fs.existsAt dest = true := by simp [FS.existsAt, hf]
  rw [h1, h2]
  simp

/-- Witness for C9 at a concrete destination file. -/
theorem c9_destination_is_file_witness :
    check_isdir [(["d"], Entry.file [7])] ["d"] ["s"] =
      (Except.error (PyErr.fileExists ["d"]), [(["d"], Entry.file [7])]) :=
  c9_destination_is_file [(["d"], Entry.file [7])] ["d"] ["s"] [7] (by decide)

/-- C2 (code bug): invoking `CopyFoldersToMounts` with `confdir` omitted
(`None`) does not succeed with the default configuration path — the
`len(confdir)` check runs before the `confdir is None` default branch and
raises `TypeError`. -/
theorem c2_confdir_default_bug (fs : FS) (name : String) (webroot : MountMap)
    (om : Option (List (String × OtherCfg))) (hlen : webroot.length ≤ 1) :
    CopyFoldersToMounts_init fs name webroot none om =
      (Except.error (PyErr.typeError "object of type NoneType has no len"), fs) := by
  unfold CopyFoldersToMounts_init
  rw [if_neg (by omega)]

/-- Witness for C2 at a concrete invocation with `confdir` omitted. -/
theorem c2_confdir_default_bug_witness :
    CopyFoldersToMounts_init [] "site1" [("/h", Src.path ["w"])] none none =
      (Except.error (PyErr.typeError "object of type NoneType has no len"), []) :=
  c2_confdir_default_bug [] "site1" [("/h", Src.path ["w"])] none (by decide)

/-- C10: content hashing is ASCII-only — `hash_of_str` raises
`UnicodeEncodeError` on any string containing a code point above 127, and
consequently `hash_of_file` fails on any file whose content is not pure
ASCII. -/
theorem c10_ascii_only :
    (∀ s : List Nat, (∃ c ∈ s, 127 < c) →
      hash_of_str s = Except.error PyErr.unicodeEncodeError) ∧
    (∀ (fs : FS) (p : FPath) (c : List Nat), fs.lookup p = some (Entry.file c) →
      (∃ x ∈ c, 127 < x) →
      hash_of_file fs p = Except.error PyErr.unicodeEncodeError) := by
  have hall : ∀ s : List Nat, (∃ c ∈ s, 127 < c) →
      (s.all (fun c => c ≤ 127)) = false := by
    intro s hs
    rcases hs with ⟨c, hc, hlt⟩
    cases hb : s.all (fun c => c ≤ 127) with
    | false => rfl
    | true =>
      have := List.all_eq_true.mp hb c hc
      simp at this
      omega
  constructor
  · intro s hs
    simp [hash_of_str, pyEncodeAscii, hall s hs, Except.map]
  · intro fs p c hc hx
    have h1 : read_absolute fs p = Except.ok c := by simp [read_absolute, hc]
    simp [hash_of_file, h1, hash_of_str, pyEncodeAscii, hall c hx, Except.map]

/-- Witness for C10 at a concrete non-ASCII string and file. -/
theorem c10_ascii_only_witness :
    hash_of_str [200] = Except.error PyErr.unicodeEncodeError ∧
    hash_of_file [(["f"], Entry.file [200])] ["f"] =
      Except.error PyErr.unicodeEncodeError :=
  ⟨c10_ascii_only.1 [200] ⟨200, by decide, by decide⟩,
   c10_ascii_only.2 [(["f"], Entry.file [200])] ["f"] [200] (by decide)
     ⟨200, by decide, by decide⟩⟩

/-- C7 (code bug): staging an already-open tar archive never extracts or
re-archives anything — after `check_isdir` has ensured the temp store
exists, the `os.makedirs(tmpstore)` call in the archive branch always
raises `FileExistsError`, so the call fails for every archive source. -/
theorem c7_tar_source_always_fails (fs : FS) (members : List (FPath × List Nat))
    (d mp : String) (b : Bool) (fs1 : FS)
    (h : check_isdir fs tmpstorePath [] = (Except.ok b, fs1)) :
    get_mount_for fs (Src.tarf members) d mp =
      (Except.error (PyErr.fileExists tmpstorePath), fs1) := by
  have hex : fs1.existsAt tmpstorePath = true := by
    have hd := check_isdir_ok_isdir h
    rw [FS.isdir] at hd
    rw [FS.existsAt]
    rcases hl : fs1.lookup tmpstorePath with _ | e
    · rw [hl] at hd; simp at hd
    · rfl
  have hmk : fs1.makedirs tmpstorePath = Except.error (PyErr.fileExists tmpstorePath) := by
    unfold FS.makedirs
    rw [hex]
    simp
  unfold get_mount_for
  rw [h]
  simp only
  rw [hmk]

/-- Witness for C7 at a concrete archive source. -/
theorem c7_tar_source_always_fails_witness :
    get_mount_for [] (Src.tarf [(["m"], [1])]) "/d" "/mp" =
      (Except.error (PyErr.fileExists tmpstorePath),
       (check_isdir [] tmpstorePath []).2) :=
  c7_tar_source_always_fails [] [(["m"], [1])] "/d" "/mp" true
    ((check_isdir [] tmpstorePath []).2) (by decide)

theorem FS.lookup_of_mem_nodup {fs : FS} (hnd : (fs.map Prod.fst).Nodup)
    {e : FPath × Entry} (he : e ∈ fs) : fs.lookup e.1 = some e.2 := by
  induction fs with
  | nil => exact absurd he (List.not_mem_nil e)
  | cons a t ih =>
    obtain ⟨k, v⟩ := a
    rcases List.mem_cons.mp he with h | h
    · subst h
      rw [FS.lookup_cons, if_pos rfl]
    · have hnd2 : (k :: t.map Prod.fst).Nodup := by
        rw [List.map_cons] at hnd
        exact hnd
      rw [FS.lookup_cons, if_neg ?hne]
      · exact ih (List.Nodup.of_cons hnd2) h
      · intro hk
        exact (List.nodup_cons.mp hnd2).1 (hk ▸ List.mem_map.mpr ⟨e, h, rfl⟩)

theorem tarAddAll_of_files {fs : FS} :
    ∀ files : List FPath, (∀ f ∈ files, fs.isfileAt f = true) →
    tarAddAll fs files = (files.map (fun f => (f, contentAt fs f)), none) := by
  intro files
  induction files with
  | nil => intro _; rfl
  | cons f t ih =>
    intro hall
    have hf := hall f (by simp)
    rw [FS.isfileAt] at hf
    rcases hl : fs.lookup f with _ | e
    · rw [hl] at hf; simp at hf
    · cases e with
      | dir => rw [hl] at hf; simp at hf
      | file c =>
        unfold tarAddAll
        rw [hl, ih (fun x hx => hall x (by simp [hx]))]
        simp [contentAt, hl]

theorem list_recursively_isdir {fs : FS} {p : FPath} (hd : fs.isdir p = true) :
    list_recursively fs p = (filesUnder fs p).map Prod.fst := by
  unfold list_recursively
  rw [hd]
  simp only [Bool.not_true, Bool.false_eq_true, if_false]
  rw [filesUnder, List.map_filterMap]
  apply List.filterMap_congr
  intro e he
  match e with
  | (q, Entry.file c) => simp only; split <;> simp
  | (q, Entry.dir) => rfl

theorem filesUnder_mem_lookup {fs : FS} {p : FPath}
    (hnd : (fs.map Prod.fst).Nodup) {m : FPath × List Nat}
    (hm : m ∈ filesUnder fs p) : fs.lookup m.1 = some (Entry.file m.2) := by
  rw [filesUnder] at hm
  rcases List.mem_filterMap.mp hm with ⟨e, he, hme⟩
  match e with
  | (q, Entry.file c) =>
    simp only at hme
    split at hme
    · injection hme with hme
      rw [← hme]
      exact FS.lookup_of_mem_nodup hnd he
    · cases hme
  | (q, Entry.dir) => simp at hme

theorem tarAddAll_list_recursively {fs : FS} {p : FPath}
    (hnd : (fs.map Prod.fst).Nodup) (hd : fs.isdir p = true) :
    tarAddAll fs (list_recursively fs p) = (filesUnder fs p, none) := by
  rw [list_recursively_isdir hd,
    tarAddAll_of_files ((filesUnder fs p).map Prod.fst) ?hfiles]
  case hfiles =>
    intro f hf
    rcases List.mem_map.mp hf with ⟨m, hm, hmf⟩
    rw [FS.isfileAt, ← hmf, filesUnder_mem_lookup hnd hm]
  congr 1
  rw [List.map_map]
  have : ∀ m ∈ filesUnder fs p,
      ((fun f => (f, contentAt fs f)) ∘ Prod.fst) m = id m := by
    intro m hm
    have := filesUnder_mem_lookup hnd hm
    simp only [Function.comp, id]
    rw [show contentAt fs m.1 = m.2 from by rw [contentAt, this]]
  rw [List.map_congr_left this, List.map_id]

/-- The full behaviour of `get_mount_for` on a path source whose path is a
directory: the archive holding exactly the files below the source is
written at `tmpstore/{name}`, while the path `/tmp/quick_deployments/{name}`
is returned. -/
theorem get_mount_for_path_eq (fs : FS) (p : FPath) (d mp : String) (b : Bool)
    (fs1 : FS) (nm : String)
    (hck : check_isdir fs tmpstorePath [] = (Except.ok b, fs1))
    (hnd : (fs1.map Prod.fst).Nodup)
    (hdir : fs1.isdir p = true)
    (hnm : tarName mp = Except.ok nm) :
    get_mount_for fs (Src.path p) d mp =
      (Except.ok
        ({ target := d, source := mp, mtype := "bind", read_only := true },
         ["tmp", "quick_deployments", nm]),
       fs1.write (tmpstorePath ++ [nm])
         (Entry.file (tarBytes (filesUnder fs1 p)))) := by
  unfold get_mount_for
  rw [hck]
  simp only
  rw [hnm]
  simp only
  rw [tarAddAll_list_recursively hnd hdir]

/-- C1 counterexample: with the destination already holding the hash of the
single source file (`existingFileHashes = [sha256("a")]`), the spec-required
member set is empty, yet the archive the code builds still contains the
file — `get_mount_for` performs no hash-diff at all. -/
theorem c1_cex :
    specStageMembers
        ((check_isdir [(["srcd"], Entry.dir), (["srcd", "f"], Entry.file [97])]
          tmpstorePath []).2) ["srcd"] [sha256hex [97]] = [] ∧
    (get_mount_for [(["srcd"], Entry.dir), (["srcd", "f"], Entry.file [97])]
        (Src.path ["srcd"]) "/d" "/mp").2.lookup
        (tmpstorePath ++ ["96100ca789bd061.tar"]) =
      some (Entry.file (tarBytes [(["srcd", "f"], [97])])) ∧
    tarBytes [(["srcd", "f"], [97])] ≠ tarBytes [] :=
  ⟨by decide, by decide, by decide⟩

/-- C1 (amended): for a path source the produced archive contains every
file below the source path, regardless of any existing-content hashes — no
hash-diff against the destination is performed. -/
theorem c1_no_hash_diff (fs : FS) (p : FPath) (d mp : String) (b : Bool)
    (fs1 : FS) (nm : String)
    (hck : check_isdir fs tmpstorePath [] = (Except.ok b, fs1))
    (hnd : (fs1.map Prod.fst).Nodup)
    (hdir : fs1.isdir p = true)
    (hnm : tarName mp = Except.ok nm) :
    get_mount_for fs (Src.path p) d mp =
      (Except.ok
        ({ target := d, source := mp, mtype := "bind", read_only := true },
         ["tmp", "quick_deployments", nm]),
       fs1.write (tmpstorePath ++ [nm])
         (Entry.file (tarBytes (filesUnder fs1 p)))) :=
  get_mount_for_path_eq fs p d mp b fs1 nm hck hnd hdir hnm

/-- Witness for C1 (amended) at a concrete one-file source tree. -/
theorem c1_no_hash_diff_witness :
    get_mount_for [(["srcd"], Entry.dir), (["srcd", "f"], Entry.file [97])]
        (Src.path ["srcd"]) "/d" "/mp" =
      (Except.ok
        ({ target := "/d", source := "/mp", mtype := "bind", read_only := true },
         ["tmp", "quick_deployments", "96100ca789bd061.tar"]),
       ((check_isdir [(["srcd"], Entry.dir), (["srcd", "f"], Entry.file [97])]
           tmpstorePath []).2).write
         (tmpstorePath ++ ["96100ca789bd061.tar"])
         (Entry.file (tarBytes (filesUnder
           ((check_isdir [(["srcd"], Entry.dir), (["srcd", "f"], Entry.file [97])]
             tmpstorePath []).2) ["srcd"])))) :=
  c1_no_hash_diff [(["srcd"], Entry.dir), (["srcd", "f"], Entry.file [97])]
    ["srcd"] "/d" "/mp" true
    ((check_isdir [(["srcd"], Entry.dir), (["srcd", "f"], Entry.file [97])]
      tmpstorePath []).2)
    "96100ca789bd061.tar" (by decide) (by decide) (by decide) (by decide)

/-- C6 (code bug): for a successfully staged path source the returned
archive path is `/tmp/quick_deployments/{first 15 hex of sha256(mount
point)}.tar` as the claim states, but the built tar archive is NOT at that
path — nothing is written there — it is written under the `tmpstore`
subdirectory instead. -/
theorem c6_archive_path_bug (fs : FS) (p : FPath) (d mp : String) (b : Bool)
    (fs1 : FS) (nm : String)
    (hck : check_isdir fs tmpstorePath [] = (Except.ok b, fs1))
    (hnd : (fs1.map Prod.fst).Nodup)
    (hdir : fs1.isdir p = true)
    (hnm : tarName mp = Except.ok nm) :
    (get_mount_for fs (Src.path p) d mp).1 =
      Except.ok
        ({ target := d, source := mp, mtype := "bind", read_only := true },
         ["tmp", "quick_deployments", nm]) ∧
    (get_mount_for fs (Src.path p) d mp).2.lookup ["tmp", "quick_deployments", nm] =
      fs1.lookup ["tmp", "quick_deployments", nm] ∧
    (get_mount_for fs (Src.path p) d mp).2.lookup (tmpstorePath ++ [nm]) =
      some (Entry.file (tarBytes (filesUnder fs1 p))) ∧
    tmpstorePath ++ [nm] ≠ ["tmp", "quick_deployments", nm] := by
  have heq := get_mount_for_path_eq fs p d mp b fs1 nm hck hnd hdir hnm
  have hne : tmpstorePath ++ [nm] ≠ ["tmp", "quick_deployments", nm] := by
    intro he
    have := congrArg List.length he
    simp [tmpstorePath] at this
  refine ⟨by rw [heq], ?_, ?_, hne⟩
  · rw [heq]
    simp only
    rw [FS.lookup_write, if_neg hne]
  · rw [heq]
    simp only
    rw [FS.lookup_write, if_pos rfl]

/-- Witness for C6 at a concrete one-file source tree. -/
theorem c6_archive_path_bug_witness :
    (get_mount_for [(["srcd"], Entry.dir), (["srcd", "f"], Entry.file [97])]
        (Src.path ["srcd"]) "/d" "/mp").1 =
      Except.ok
        ({ target := "/d", source := "/mp", mtype := "bind", read_only := true },
         ["tmp", "quick_deployments", "96100ca789bd061.tar"]) ∧
    (get_mount_for [(["srcd"], Entry.dir), (["srcd", "f"], Entry.file [97])]
        (Src.path ["srcd"]) "/d" "/mp").2.lookup
        ["tmp", "quick_deployments", "96100ca789bd061.tar"] =
      ((check_isdir [(["srcd"], Entry.dir), (["srcd", "f"], Entry.file [97])]
        tmpstorePath []).2).lookup
        ["tmp", "quick_deployments", "96100ca789bd061.tar"] ∧
    (get_mount_for [(["srcd"], Entry.dir), (["srcd", "f"], Entry.file [97])]
        (Src.path ["srcd"]) "/d" "/mp").2.lookup
        (tmpstorePath ++ ["96100ca789bd061.tar"]) =
      some (Entry.file (tarBytes (filesUnder
        ((check_isdir [(["srcd"], Entry.dir), (["srcd", "f"], Entry.file [97])]
          tmpstorePath []).2) ["srcd"]))) ∧
    tmpstorePath ++ ["96100ca789bd061.tar"] ≠
      ["tmp", "quick_deployments", "96100ca789bd061.tar"] :=
  c6_archive_path_bug [(["srcd"], Entry.dir), (["srcd", "f"], Entry.file [97])]
    ["srcd"] "/d" "/mp" true
    ((check_isdir [(["srcd"], Entry.dir), (["srcd", "f"], Entry.file [97])]
      tmpstorePath []).2)
    "96100ca789bd061.tar" (by decide) (by decide) (by decide) (by decide)

/-- C8 counterexample: for the separator-containing name `"a/b"` the spec
demands an `InvalidName` failure, but `get_parent_dir` returns a path (the
name is spliced straight into the static root, traversal included). -/
theorem c8_cex :
    parentDirectoryFor "a/b" = Except.error PyErr.invalidName ∧
    get_parent_dir "a/b" = "/usr/share/quick_deployments/static/a/b" :=
  ⟨by decide, by decide⟩

/-- C8 (amended): `get_parent_dir` performs no name validation — every name
not beginning with a separator (separator-containing names included) maps
to `/usr/share/quick_deployments/static/{name}`, and a name beginning with
a separator is returned unchanged (`os.path.join` resets on absolute
components). -/
theorem c8_no_validation (name : String) :
    (name.data.take 1 ≠ ['/'] →
      get_parent_dir name = "/usr/share/quick_deployments/static/" ++ name) ∧
    (name.data.take 1 = ['/'] → get_parent_dir name = name) := by
  have hbase : osPathJoin (osPathJoin (osPathJoin (osPathJoin "/" "usr") "share")
      "quick_deployments") "static" = "/usr/share/quick_deployments/static" := by decide
  constructor
  · intro h
    unfold get_parent_dir
    rw [hbase]
    unfold osPathJoin
    rw [if_neg h, if_neg (by decide)]
    rw [show ("/usr/share/quick_deployments/static" ++ "/" : String) =
      "/usr/share/quick_deployments/static/" from by decide]
  · intro h
    unfold get_parent_dir
    rw [hbase]
    unfold osPathJoin
    rw [if_pos h]

/-- Witness for C8 (amended) at concrete names. -/
theorem c8_no_validation_witness :
    get_parent_dir "site1" = "/usr/share/quick_deployments/static/" ++ "site1" ∧
    get_parent_dir "/abs" = "/abs" :=
  ⟨(c8_no_validation "site1").1 (by decide), (c8_no_validation "/abs").2 (by decide)⟩

/-- C3 counterexample: two mount specifications resolving to the same
destination (host mount point `"/shared"` for both webroot and confdir) do
not produce `DuplicateMountTarget` — the constructor fails with the
`TypeError` of the malformed confdir staging call. -/
theorem c3_cex :
    (CopyFoldersToMounts_init [(["srcd"], Entry.dir), (["srcd", "f"], Entry.file [97])]
        "site1" [("/shared", Src.path ["srcd"])]
        (some [("/shared", Src.path ["srcd"])]) none).1 =
      Except.error (PyErr.typeError
        "get_mount_for missing 1 required positional argument") ∧
    Except.error (PyErr.typeError
        "get_mount_for missing 1 required positional argument") ≠
      (Except.error PyErr.duplicateMountTarget :
        Except PyErr (List (DMount × FPath))) :=
  ⟨by decide, by decide⟩

/-- C3 (amended): with two mount specs sharing a destination, mount
planning does fail before any container is created — but with the
`TypeError` raised by the confdir staging call (which omits the required
`mount_point` argument), not with `DuplicateMountTarget`; no
duplicate-destination check exists in the code. -/
theorem c3_plan_always_fails (fs : FS) (name wk ck : String) (wv cv : Src)
    (om : Option (List (String × OtherCfg))) (r : DMount × FPath) (fs1 : FS)
    (hdup : ck = wk)
    (hstage : get_mount_for fs wv wk "/usr/share/nginx/html" = (Except.ok r, fs1)) :
    CopyFoldersToMounts_init fs name [(wk, wv)] (some [(ck, cv)]) om =
      (Except.error (PyErr.typeError
        "get_mount_for missing 1 required positional argument"), fs1) := by
  show (match get_mount_for fs wv wk "/usr/share/nginx/html" with
    | (Except.error e, fs2) => (Except.error e, fs2)
    | (Except.ok _, fs2) =>
      match [(ck, cv)] with
      | [] => (Except.error PyErr.indexError, fs2)
      | _ :: _ =>
        (Except.error (PyErr.typeError
          "get_mount_for missing 1 required positional argument"), fs2)) =
    (Except.error (PyErr.typeError
      "get_mount_for missing 1 required positional argument"), fs1)
  rw [hstage]

/-- Witness for C3 (amended) at a concrete duplicated destination. -/
theorem c3_plan_always_fails_witness :
    CopyFoldersToMounts_init [(["srcd"], Entry.dir), (["srcd", "f"], Entry.file [97])]
        "w" [("/shared", Src.path ["srcd"])] (some [("/shared", Src.path ["srcd"])]) none =
      (Except.error (PyErr.typeError
        "get_mount_for missing 1 required positional argument"),
       (get_mount_for [(["srcd"], Entry.dir), (["srcd", "f"], Entry.file [97])]
         (Src.path ["srcd"]) "/shared" "/usr/share/nginx/html").2) :=
  c3_plan_always_fails [(["srcd"], Entry.dir), (["srcd", "f"], Entry.file [97])]
    "w" "/shared" "/shared" (Src.path ["srcd"]) (Src.path ["srcd"]) none
    ({ target := "/shared", source := "/usr/share/nginx/html",
       mtype := "bind", read_only := true },
     ["tmp", "quick_deployments", "b1e1a8c19b30d7e.tar"])
    ((get_mount_for [(["srcd"], Entry.dir), (["srcd", "f"], Entry.file [97])]
      (Src.path ["srcd"]) "/shared" "/usr/share/nginx/html").2)
    rfl (by decide)

theorem prefix_length_lt {a b : FPath} (h : a <+: b) (hne : a ≠ b) :
    a.length < b.length := by
  rcases Nat.lt_or_ge a.length b.length with h1 | h1
  · exact h1
  · exact absurd (h.eq_of_length (by have := h.length_le; omega)) hne

theorem prefix_dropLast_of_proper {q p : FPath} (h : q <+: p) (hne : q ≠ p) :
    q <+: p.dropLast := by
  rw [List.dropLast_eq_take]
  exact List.prefix_take_iff.mpr ⟨h, by have := prefix_length_lt h hne; omega⟩

theorem FS.hasChild_of_mem {fs : FS} {p : FPath} {e : FPath × Entry}
    (he : e ∈ fs) (h1 : p <+: e.1) (h2 : e.1 ≠ p) : fs.hasChild p = true := by
  rw [FS.hasChild]
  exact List.any_eq_true.mpr
    ⟨e, he, by simp [List.isPrefixOf_iff_prefix, h1, bne_iff_ne, h2]⟩

theorem FS.not_child_of_hasChild_false {fs : FS} {p : FPath}
    (h : fs.hasChild p = false) {e : FPath × Entry} (he : e ∈ fs) :
    ¬(p <+: e.1 ∧ e.1 ≠ p) := by
  rintro ⟨h1, h2⟩
  rw [FS.hasChild_of_mem he h1 h2] at h
  cases h

theorem entriesUnder_eq_nil_of {fs : FS} {src : FPath}
    (h : ∀ e ∈ fs, ¬(src <+: e.1 ∧ e.1 ≠ src)) : fs.entriesUnder src = [] := by
  rw [FS.entriesUnder]
  rw [List.filter_eq_nil_iff]
  intro e he
  simp only [Bool.and_eq_true, List.isPrefixOf_iff_prefix, bne_iff_ne, ne_eq, not_and]
  intro h1 h2
  exact (h e he) ⟨h1, h2⟩

theorem FS.pruneAux_lookup (q : FPath) :
    ∀ (n : Nat) (fs : FS) (p : FPath), n = p.length →
    ((FS.pruneAux n fs p).lookup q = fs.lookup q ∨
      ((FS.pruneAux n fs p).lookup q = none ∧ q <+: p ∧ q ≠ [])) := by
  intro n
  induction n with
  | zero =>
    intro fs p hn
    rw [FS.pruneAux]
    left; rfl
  | succ n ih =>
    intro fs p hn
    rw [FS.pruneAux]
    have hpne : p ≠ [] := by
      intro h; rw [h] at hn; simp at hn
    have hp : ¬p.isEmpty = true := by
      cases p with
      | nil => exact absurd rfl hpne
      | cons a t => simp
    rw [if_neg hp]
    by_cases hc : (fs.isdir p && !fs.hasChild p) = true
    · rw [if_pos hc]
      have hlen : n = p.dropLast.length := by
        rw [List.length_dropLast]
        omega
      rcases ih (fs.removeEntry p) p.dropLast hlen with h | ⟨h1, h2, h3⟩
      · rw [FS.lookup_removeEntry] at h
        by_cases hqp : q = p
        · right
          refine ⟨by rw [h, if_pos hqp], by rw [hqp], by rw [hqp]; exact hpne⟩
        · left
          rw [h, if_neg hqp]
      · right
        exact ⟨h1, h2.trans (List.dropLast_prefix p), h3⟩
    · rw [if_neg hc]
      left; rfl

theorem FS.prune_lookup (fs : FS) (p q : FPath) :
    (FS.prune fs p).lookup q = fs.lookup q ∨
      ((FS.prune fs p).lookup q = none ∧ q <+: p ∧ q ≠ []) :=
  FS.pruneAux_lookup q p.length fs p rfl

theorem pruneAux_no_entries_under (src : FPath) :
    ∀ (n : Nat) (p : FPath), n = p.length → ∀ g : FS,
    (∀ qq, src <+: qq → qq ≠ src → qq <+: p → g.lookup qq = some Entry.dir) →
    (∀ e ∈ g, src <+: e.1 → e.1 ≠ src → e.1 <+: p) →
    FS.entriesUnder (FS.pruneAux n g p) src = [] := by
  intro n
  induction n with
  | zero =>
    intro p hn g hb hcc
    have hpnil : p = [] := by
      cases p with
      | nil => rfl
      | cons a t => simp at hn
    subst hpnil
    rw [FS.pruneAux]
    apply entriesUnder_eq_nil_of
    rintro e he ⟨h1, h2⟩
    have h3 := hcc e he h1 h2
    have h4 : e.1 = [] := List.prefix_nil.mp h3
    rw [h4] at h1
    have h5 : src = [] := List.prefix_nil.mp h1
    rw [h4, h5] at h2
    exact h2 rfl
  | succ n ih =>
    intro p hn g hb hcc
    rw [FS.pruneAux]
    have hpne : p ≠ [] := by
      intro h; rw [h] at hn; simp at hn
    have hpe : ¬p.isEmpty = true := by
      cases p with
      | nil => exact absurd rfl hpne
      | cons a t => simp
    rw [if_neg hpe]
    by_cases hc : (g.isdir p && !g.hasChild p) = true
    · rw [if_pos hc]
      apply ih p.dropLast (by rw [List.length_dropLast]; omega)
      · intro qq h1 h2 h3
        have hqqp : qq <+: p := h3.trans (List.dropLast_prefix p)
        have hqqnil : qq ≠ [] := by
          intro hh
          rw [hh] at h1
          have hsnil := List.prefix_nil.mp h1
          rw [hh, hsnil] at h2
          exact h2 rfl
        have hqqnp : qq ≠ p := by
          intro he
          have hle := h3.length_le
          rw [List.length_dropLast] at hle
          have h4 : 1 ≤ qq.length := by
            cases qq with
            | nil => exact absurd rfl hqqnil
            | cons a t => simp
          rw [he] at h4 hle
          omega
        rw [FS.lookup_removeEntry, if_neg hqqnp]
        exact hb qq h1 h2 hqqp
      · intro e he h1 h2
        rw [FS.removeEntry] at he
        have he2 := List.mem_filter.mp he
        have hene : e.1 ≠ p := by simpa using he2.2
        exact prefix_dropLast_of_proper (hcc e he2.1 h1 h2) hene
    · rw [if_neg hc]
      apply entriesUnder_eq_nil_of
      rintro e he ⟨h1, h2⟩
      have h3 : e.1 <+: p := hcc e he h1 h2
      have hsp : src <+: p := h1.trans h3
      have hlt : src.length < e.1.length := prefix_length_lt h1 (fun hh => h2 hh.symm)
      have hsnp : src ≠ p := by
        intro he1
        have hl1 := congrArg List.length he1
        have hl2 := h3.length_le
        omega
      have hdir : g.isdir p = true := by
        rw [FS.isdir, hb p hsp (Ne.symm hsnp) (List.prefix_refl p)]
        rfl
      have hnc : g.hasChild p = false := by
        rw [← Bool.not_eq_true]
        rw [FS.hasChild]
        rw [List.any_eq_true]
        rintro ⟨f, hf, hfp⟩
        simp only [Bool.and_eq_true, List.isPrefixOf_iff_prefix, bne_iff_ne, ne_eq] at hfp
        obtain ⟨hf1, hf2⟩ := hfp
        have hflt : p.length < f.1.length := prefix_length_lt hf1 (fun hh => hf2 hh.symm)
        have hfs : src <+: f.1 := hsp.trans hf1
        have hfns : f.1 ≠ src := by
          intro hh
          have hl1 := congrArg List.length hh
          have hl2 := h3.length_le
          omega
        have := (hcc f hf hfs hfns).length_le
        omega
      rw [hdir, hnc] at hc
      simp at hc

theorem prune_no_entries_under (src : FPath) (p : FPath) (g : FS)
    (hb : ∀ qq, src <+: qq → qq ≠ src → qq <+: p → g.lookup qq = some Entry.dir)
    (hcc : ∀ e ∈ g, src <+: e.1 → e.1 ≠ src → e.1 <+: p) :
    FS.entriesUnder (FS.prune g p) src = [] :=
  pruneAux_no_entries_under src p.length p rfl g hb hcc

theorem FS.makedirs_ok_lookup_nilkey {fs : FS} {p : FPath} {fs1 : FS}
    (h : fs.makedirs p = Except.ok fs1) (hp : p ≠ []) :
    fs1.lookup [] = fs.lookup [] := by
  obtain ⟨-, -, h3⟩ := FS.makedirs_ok_inv h
  subst h3
  rw [FS.lookup_cons, if_neg hp]
  apply FS.lookup_append
  intro e he
  rcases List.mem_map.mp he with ⟨r, hr, hre⟩
  rcases List.mem_filter.mp hr with ⟨hanc, -⟩
  intro he1
  rw [← hre] at he1
  simp only at he1
  rw [he1] at hanc
  exact (ancestorsOf_mem_iff.mp hanc).2.2 rfl

theorem FS.copytree_ok_nochild {fs : FS} {src dst : FPath} {fs1 : FS}
    (h : fs.copytree src dst = Except.ok fs1) (hch : fs1.hasChild dst = false) :
    fs.makedirs dst = Except.ok fs1 ∧ fs.entriesUnder src = [] := by
  obtain ⟨fs2, hmk, heq⟩ := FS.copytree_ok_inv h
  cases hu : fs.entriesUnder src with
  | nil =>
    rw [hu] at heq
    simp only [List.map_nil, List.nil_append] at heq
    subst heq
    exact ⟨hmk, rfl⟩
  | cons x xs =>
    exfalso
    have hxu : x ∈ fs.entriesUnder src := by rw [hu]; simp
    have hxmem : (dst ++ x.1.drop src.length, x.2) ∈ fs1 := by
      rw [heq, hu]
      exact List.mem_append_left _ (List.mem_map.mpr ⟨x, List.mem_cons_self x xs, rfl⟩)
    have hrel : x.1.drop src.length ≠ [] := entriesUnder_drop_ne hxu
    have hcc : fs1.hasChild dst = true :=
      FS.hasChild_of_mem hxmem (List.prefix_append dst _) (strict_ext_ne hrel)
    rw [hcc] at hch
    cases hch

theorem first_call_shape {fs : FS} {dest src : FPath} {b : Bool} {fs1 : FS}
    (h1 : check_isdir fs dest src = (Except.ok b, fs1))
    (hch : fs1.hasChild dest = false) (hsrc : src ≠ []) :
    ∃ base, base.makedirs dest = Except.ok fs1 ∧
      FS.entriesUnder base src = [] ∧ fs1.isdir src = true := by
  have hisdir_src : ∀ base : FS, base.makedirs dest = Except.ok fs1 →
      (¬(src <+: dest) → base.lookup src = some Entry.dir) → fs1.isdir src = true := by
    intro base hmk hb
    by_cases hsp : src <+: dest
    · rw [FS.isdir, FS.makedirs_ok_lookup_prefix hmk hsp hsrc]
      rfl
    · rw [FS.isdir, FS.makedirs_ok_lookup_other hmk hsp, hb hsp]
      rfl
  have hsrcb : ¬src.isEmpty = true := by
    cases src with
    | nil => exact absurd rfl hsrc
    | cons a t => simp
  unfold check_isdir at h1
  split at h1
  case isTrue hnd =>
    split at h1
    · simp at h1
    case isFalse hnex =>
      split at h1
      case isTrue hcond =>
        -- fresh destination, src is a directory: copytree from fs
        have hsd : fs.isdir src = true := by
          cases hx : fs.isdir src with
          | true => rfl
          | false => rw [hx, Bool.and_false] at hcond; cases hcond
        split at h1
        next fs2 hct =>
          injection h1 with h1a h1b
          subst h1b
          obtain ⟨hmk, hu⟩ := FS.copytree_ok_nochild hct hch
          refine ⟨fs, hmk, hu, hisdir_src fs hmk (fun _ => ?_)⟩
          rw [FS.isdir] at hsd
          simpa using hsd
        next e hct => simp at h1
      case isFalse hcond =>
        -- fresh destination, src not a directory: makedirs then copy; the
        -- copied file is a child of the destination, contradicting hch
        split at h1
        next e hmk => simp at h1
        next fs2 hmk =>
          split at h1
          case isTrue =>
            split at h1
            next fs3 hcp =>
              exfalso
              injection h1 with h1a h1b
              subst h1b
              obtain ⟨c, hlk, hw⟩ := FS.shutilCopy_ok_inv hcp
              subst hw
              have hmem : (dest ++ [src.getLastD ""], Entry.file c) ∈
                  fs2.write (dest ++ [src.getLastD ""]) (Entry.file c) := by
                rw [FS.write]; simp
              have hcc := FS.hasChild_of_mem hmem (List.prefix_append dest _)
                (strict_ext_ne (by simp))
              rw [hcc] at hch
              cases hch
            next e hcp => simp at h1
          case isFalse hsrc2 =>
            exact absurd hsrcb (by simpa using hsrc2)
  case isFalse hnd =>
    have hdir : fs.isdir dest = true := by
      cases hb : fs.isdir dest with
      | true => rfl
      | false => rw [hb] at hnd; simp at hnd
    split at h1
    case isTrue hcond =>
      split at h1
      case isTrue hsd =>
        -- empty destination dir, src is a directory: removedirs then copytree
        split at h1
        next fs2 hct =>
          injection h1 with h1a h1b
          subst h1b
          obtain ⟨hmk, hu⟩ := FS.copytree_ok_nochild hct hch
          refine ⟨fs.removedirs dest, hmk, hu, hisdir_src _ hmk (fun hsp => ?_)⟩
          rw [FS.removedirs]
          rcases FS.prune_lookup (fs.removeEntry dest) dest.dropLast src with h | ⟨-, h2, -⟩
          · rw [h, FS.lookup_removeEntry,
              if_neg (fun he : src = dest => hsp (he ▸ List.prefix_refl src))]
            rw [FS.isdir] at hsd
            simpa using hsd
          · exact absurd (h2.trans (List.dropLast_prefix dest)) hsp
        next e hct => simp at h1
      case isFalse hsd =>
        -- empty destination dir, src not a directory: copy into it; the copied
        -- file is a child of the destination, contradicting hch
        split at h1
        next fs2 hcp =>
          exfalso
          injection h1 with h1a h1b
          subst h1b
          obtain ⟨c, hlk, hw⟩ := FS.shutilCopy_ok_inv hcp
          subst hw
          have hmem : (dest ++ [src.getLastD ""], Entry.file c) ∈
              fs.write (dest ++ [src.getLastD ""]) (Entry.file c) := by
            rw [FS.write]; simp
          have hcc := FS.hasChild_of_mem hmem (List.prefix_append dest _)
            (strict_ext_ne (by simp))
          rw [hcc] at hch
          cases hch
        next e hcp => simp at h1
    case isFalse hcond =>
      -- the no-op branch: fs1 = fs, but then the destination has a child or
      -- src is empty, both contradicted
      exfalso
      injection h1 with h1a h1b
      subst h1b
      rw [Bool.and_eq_true] at hcond
      rcases not_and_or.mp hcond with h | h
      · have : fs.hasChild dest = true := by
          cases hb : fs.hasChild dest with
          | true => rfl
          | false => exact absurd (by rw [hb]; rfl) h
        rw [this] at hch
        cases hch
      · have hse : src.isEmpty = true := by
          cases hs : src.isEmpty with
          | true => rfl
          | false => exact absurd (by rw [hs]; rfl) h
        exact hsrcb hse

theorem removedirs_copytree_roundtrip {base fs1 : FS} {dest src : FPath}
    (hmk1 : base.makedirs dest = Except.ok fs1)
    (hbase : FS.entriesUnder base src = [])
    (hch : fs1.hasChild dest = false)
    (hsrc : src ≠ []) :
    ∃ fs2, (fs1.removedirs dest).copytree src dest = Except.ok fs2 ∧
      FS.equiv fs2 fs1 := by
  obtain ⟨hex1, hanc1, hshape⟩ := FS.makedirs_ok_inv hmk1
  -- naming: g is the state after removing the destination entry, pr after the
  -- ancestor pruning of os.removedirs
  have hgp : fs1.removedirs dest = FS.prune (fs1.removeEntry dest) dest.dropLast := rfl
  -- no entry below src survives the removedirs call
  have hS1 : FS.entriesUnder (FS.prune (fs1.removeEntry dest) dest.dropLast) src = [] := by
    apply prune_no_entries_under src dest.dropLast (fs1.removeEntry dest)
    · intro qq h1 h2 h3
      have hqqp : qq <+: dest := h3.trans (List.dropLast_prefix dest)
      have hqqnil : qq ≠ [] := by
        intro hh
        rw [hh] at h1
        rw [hh, List.prefix_nil.mp h1] at h2
        exact h2 rfl
      have hqqnp : qq ≠ dest := by
        intro he
        have hle := h3.length_le
        rw [List.length_dropLast] at hle
        have h4 : 1 ≤ qq.length := by
          cases qq with
          | nil => exact absurd rfl hqqnil
          | cons a t => simp
        rw [he] at h4 hle
        omega
      rw [FS.lookup_removeEntry, if_neg hqqnp]
      exact FS.makedirs_ok_lookup_prefix hmk1 hqqp hqqnil
    · intro e he h1 h2
      rw [FS.removeEntry] at he
      have he2 := List.mem_filter.mp he
      have hene : e.1 ≠ dest := by simpa using he2.2
      have hef : e ∈ fs1 := he2.1
      rw [hshape] at hef
      rcases List.mem_cons.mp hef with hh | hh
      · exact absurd (by rw [hh]) hene
      · rcases List.mem_append.mp hh with hh2 | hh2
        · rcases List.mem_map.mp hh2 with ⟨r, hr, hre⟩
          rcases List.mem_filter.mp hr with ⟨hanc, -⟩
          have : e.1 = r := by rw [← hre]
          rw [this]
          rcases ancestorsOf_mem_iff.mp hanc with ⟨ha1, ha2, -⟩
          exact prefix_dropLast_of_proper ha1 ha2
        · exfalso
          have : e ∈ FS.entriesUnder base src :=
            FS.mem_entriesUnder.mpr ⟨hh2, h1, h2⟩
          rw [hbase] at this
          exact absurd this (List.not_mem_nil e)
  -- the second makedirs succeeds on the pruned state
  have hprex : (FS.prune (fs1.removeEntry dest) dest.dropLast).existsAt dest = false := by
    rcases FS.prune_lookup (fs1.removeEntry dest) dest.dropLast dest with h | ⟨h, -, -⟩
    · rw [FS.existsAt, h, FS.lookup_removeEntry, if_pos rfl]
      rfl
    · rw [FS.existsAt, h]
      rfl
  have hpranc : ((ancestorsOf dest).any
      (fun q => (FS.prune (fs1.removeEntry dest) dest.dropLast).isfileAt q)) = false := by
    rw [← Bool.not_eq_true, List.any_eq_true]
    rintro ⟨q, hq, hfq⟩
    rcases ancestorsOf_mem_iff.mp hq with ⟨hq1, hq2, hq3⟩
    have hlk : (FS.prune (fs1.removeEntry dest) dest.dropLast).lookup q = some Entry.dir ∨
        (FS.prune (fs1.removeEntry dest) dest.dropLast).lookup q = none := by
      rcases FS.prune_lookup (fs1.removeEntry dest) dest.dropLast q with h | ⟨h, -, -⟩
      · left
        rw [h, FS.lookup_removeEntry, if_neg hq2]
        exact FS.makedirs_ok_lookup_prefix hmk1 hq1 hq3
      · right; exact h
    rcases hlk with h | h <;> rw [FS.isfileAt, h] at hfq <;> simp at hfq
  have hmk2 : (FS.prune (fs1.removeEntry dest) dest.dropLast).makedirs dest =
      Except.ok ((dest, Entry.dir) ::
        (((ancestorsOf dest).filter
          (fun q => !(FS.prune (fs1.removeEntry dest) dest.dropLast).existsAt q)).map
          (fun q => (q, Entry.dir)) ++
          FS.prune (fs1.removeEntry dest) dest.dropLast)) := by
    rw [FS.makedirs, hprex]
    rw [if_neg (by simp), if_neg (by rw [hpranc]; simp)]
  refine ⟨(dest, Entry.dir) ::
      (((ancestorsOf dest).filter
        (fun q => !(FS.prune (fs1.removeEntry dest) dest.dropLast).existsAt q)).map
        (fun q => (q, Entry.dir)) ++
        FS.prune (fs1.removeEntry dest) dest.dropLast), ?_, ?_⟩
  · rw [hgp, FS.copytree, hmk2, hS1]
    rfl
  · -- observable equivalence with the state after the first call
    intro q
    by_cases hq1 : q <+: dest
    · by_cases hq2 : q = dest
      · subst hq2
        rw [FS.makedirs_ok_lookup_self hmk2, FS.makedirs_ok_lookup_self hmk1]
      · by_cases hq3 : q = []
        · subst hq3
          have hdne : dest ≠ [] := fun hh => hq2 hh.symm
          rw [FS.makedirs_ok_lookup_nilkey hmk2 hdne]
          have hpr : (FS.prune (fs1.removeEntry dest) dest.dropLast).lookup [] =
              (fs1.removeEntry dest).lookup [] := by
            rcases FS.prune_lookup (fs1.removeEntry dest) dest.dropLast [] with h | ⟨-, -, h3⟩
            · exact h
            · exact absurd rfl h3
          rw [hpr, FS.lookup_removeEntry, if_neg (fun hh => hq2 hh)]
        · rw [FS.makedirs_ok_lookup_prefix hmk2 hq1 hq3,
            FS.makedirs_ok_lookup_prefix hmk1 hq1 hq3]
    · rw [FS.makedirs_ok_lookup_other hmk2 hq1]
      have hqd : q ≠ dest := fun hh => hq1 (hh ▸ List.prefix_refl q)
      have hpr : (FS.prune (fs1.removeEntry dest) dest.dropLast).lookup q =
          (fs1.removeEntry dest).lookup q := by
        rcases FS.prune_lookup (fs1.removeEntry dest) dest.dropLast q with h | ⟨-, h2, -⟩
        · exact h
        · exact absurd (h2.trans (List.dropLast_prefix dest)) hq1
      rw [hpr, FS.lookup_removeEntry, if_neg hqd]

/-- C5 counterexample: destination an existing empty directory, source an
empty directory — the first `check_isdir` call re-copies and returns `True`
(`Created`), and so does the second call: the second call does NOT report
`AlreadyPresent` (`False`) as the claim requires. -/
theorem c5_cex :
    (check_isdir [(["dst"], Entry.dir), (["esrc"], Entry.dir)] ["dst"] ["esrc"]).1 =
      Except.ok true ∧
    (check_isdir ((check_isdir [(["dst"], Entry.dir), (["esrc"], Entry.dir)]
        ["dst"] ["esrc"]).2) ["dst"] ["esrc"]).1 = Except.ok true ∧
    (Except.ok true : Except PyErr Bool) ≠ Except.ok false :=
  ⟨by decide, by decide, by decide⟩

/-- C5 (amended): after any successful `check_isdir` call, a second call
with the same arguments succeeds, leaves the on-disk content observably
identical (`FS.equiv`) to the state after the first call, and reports
`AlreadyPresent` (`False`) — except when the source is a directory with no
files below it and the destination is still empty, in which case the copy
is re-run and the second call reports `Created` (`True`) while the content
is still unchanged. -/
theorem c5_idempotent (fs : FS) (dest src : FPath) (b : Bool) (fs1 : FS)
    (h1 : check_isdir fs dest src = (Except.ok b, fs1)) :
    ∃ b2 fs2, check_isdir fs1 dest src = (Except.ok b2, fs2) ∧ FS.equiv fs2 fs1 ∧
      (b2 = false ∨
        (b2 = true ∧ fs1.hasChild dest = false ∧ src ≠ [] ∧ fs1.isdir src = true)) := by
  have hdir1 : fs1.isdir dest = true := check_isdir_ok_isdir h1
  by_cases hch : fs1.hasChild dest = true
  · refine ⟨false, fs1, ?_, fun q => rfl, Or.inl rfl⟩
    unfold check_isdir
    rw [hdir1, hch]
    simp
  · have hch0 : fs1.hasChild dest = false := by
      cases h : fs1.hasChild dest with
      | false => rfl
      | true => exact absurd h hch
    by_cases hsrc : src = []
    · refine ⟨false, fs1, ?_, fun q => rfl, Or.inl rfl⟩
      subst hsrc
      unfold check_isdir
      rw [hdir1, hch0]
      simp
    · obtain ⟨base, hmk1, hbase, hsdir⟩ := first_call_shape h1 hch0 hsrc
      obtain ⟨fs2, hct, hequiv⟩ := removedirs_copytree_roundtrip hmk1 hbase hch0 hsrc
      refine ⟨true, fs2, ?_, hequiv, Or.inr ⟨rfl, hch0, hsrc, hsdir⟩⟩
      have hsrcb : src.isEmpty = false := by
        cases src with
        | nil => exact absurd rfl hsrc
        | cons a t => rfl
      unfold check_isdir
      rw [hdir1, hch0, hsrcb, hsdir, hct]
      simp

/-- Witness for C5 (amended): a concrete successful first call (fresh
destination populated by a recursive copy), to which the theorem applies. -/
theorem c5_idempotent_witness :
    ∃ b2 fs2,
      check_isdir ((check_isdir [(["s"], Entry.dir), (["s", "x"], Entry.file [1])]
          ["d"] ["s"]).2) ["d"] ["s"] = (Except.ok b2, fs2) ∧
      FS.equiv fs2 ((check_isdir [(["s"], Entry.dir), (["s", "x"], Entry.file [1])]
          ["d"] ["s"]).2) ∧
      (b2 = false ∨
        (b2 = true ∧
          FS.hasChild ((check_isdir [(["s"], Entry.dir), (["s", "x"], Entry.file [1])]
            ["d"] ["s"]).2) ["d"] = false ∧
          (["s"] : FPath) ≠ [] ∧
          FS.isdir ((check_isdir [(["s"], Entry.dir), (["s", "x"], Entry.file [1])]
            ["d"] ["s"]).2) ["s"] = true)) :=
  c5_idempotent [(["s"], Entry.dir), (["s", "x"], Entry.file [1])] ["d"] ["s"] true
    ((check_isdir [(["s"], Entry.dir), (["s", "x"], Entry.file [1])] ["d"] ["s"]).2)
    (by decide)
